import Mathlib

/-!
Verification of the histogram / equalization / thresholding core of
`src/src/main.cpp` (mhco0/image-tools).  The C++ is embedded shallowly:

* an image (`BmpImg` as used by the code) is a width, a height, and three
  channel planes mapping coordinates to bytes (`Fin 256`);
* histograms are `Nat`-valued count functions on bin indices (bins `≥ 256`
  are `0`);
* every C++ loop is rendered as a structurally recursive scan with the same
  iteration order, so first-match behaviour (of `std::max_element` and the
  linear searches) is preserved;
* 32-bit `int` arithmetic is modelled exactly (`wrap32`) at the one place the
  code can overflow, the weighted-distance products of `TwoPeaks`.
-/

/-- Truncation of a natural number to a C++ `byte` (unsigned char). -/
def byteOfNat (n : Nat) : Fin 256 := ⟨n % 256, Nat.mod_lt _ (by norm_num)⟩

/-- Shallow embedding of a bitmap image: dimensions plus the three channel
planes (`red_at`, `green_at`, `blue_at` of `BmpImg`); channel values are
bytes. Coordinates outside `[0,width) × [0,height)` are irrelevant to every
operation modelled here (the C++ loops never touch them). -/
@[ext]
structure Image where
  width : Nat
  height : Nat
  red : Nat → Nat → Fin 256
  green : Nat → Nat → Fin 256
  blue : Nat → Nat → Fin 256

/-- One channel of `GetHistogram` (main.cpp:117-133): the double loop over
`x < width`, `y < height` increments the bin holding the pixel's channel
value, so bin `v` ends up with the number of pixels whose value equals `v`. -/
def channelHist (w h : Nat) (chan : Nat → Nat → Fin 256) (v : Nat) : Nat :=
  ∑ x in Finset.range w, ∑ y in Finset.range h,
    if (chan x y : Nat) = v then 1 else 0

/-- The `RGBHistogram` struct of main.cpp:29-33: a 256-bin count table per
channel (field order of the source: red, blue, green). -/
structure RGBHistogram where
  red : Nat → Nat
  blue : Nat → Nat
  green : Nat → Nat

/-- `GetHistogram` (main.cpp:117-133). -/
def GetHistogram (img : Image) : RGBHistogram where
  red := channelHist img.width img.height img.red
  blue := channelHist img.width img.height img.blue
  green := channelHist img.width img.height img.green

/-- The `set_cdf` lambda of `Equalize` (main.cpp:247-253): `cdf hist i` is the
prefix sum `hist 0 + ... + hist i`, accumulated exactly as the loop does. -/
def cdf (hist : Nat → Nat) : Nat → Nat
  | 0 => hist 0
  | i + 1 => hist (i + 1) + cdf hist i

/-- Loop of the `get_min_on_cdf` lambda (main.cpp:255-262): scan `fuel`
indices starting at `i` and return the first nonzero entry's value, `0` if
none is found. -/
def scanFirstNonzero (f : Nat → Nat) : Nat → Nat → Nat
  | _, 0 => 0
  | i, fuel + 1 => if f i ≠ 0 then f i else scanFirstNonzero f (i + 1) fuel

/-- The `get_min_on_cdf` lambda of `Equalize` (main.cpp:255-262). -/
def get_min_on_cdf (f : Nat → Nat) (size : Nat) : Nat :=
  scanFirstNonzero f 0 size

/-- The `equalized_value` lambda of `Equalize` (main.cpp:264-268):
`255 * (cdf[value] - min_value) / (total - min_value)`.  The C++ evaluates
the ratio in `double` and truncates toward zero; on the arguments `Equalize`
actually passes (`min_value ≤ cdf value ≤ total`) the quotient lies in
`[0,1]`, and at the quotients 0 and 1 that the theorems below evaluate it at
the `double` computation is exact, so `Nat` floor division models it
faithfully there. -/
def equalized_value (c : Nat → Nat) (value min_value total : Nat) : Nat :=
  255 * (c value - min_value) / (total - min_value)

/-- Per-channel body of the remap loop of `Equalize` (main.cpp:278-293); the
final cast to `byte` is `byteOfNat`. -/
def equalizeChannel (w h : Nat) (chan : Nat → Nat → Fin 256) :
    Nat → Nat → Fin 256 :=
  fun x y =>
    byteOfNat (equalized_value (cdf (channelHist w h chan)) (chan x y)
      (get_min_on_cdf (cdf (channelHist w h chan)) 256) (w * h))

/-- `Equalize` (main.cpp:233-294).  The C++ mutates the image in place, but
the histogram and CDFs are computed before the remap loop and each pixel is
read before it is written, so the pass equals this pure per-pixel map. -/
def Equalize (img : Image) : Image where
  width := img.width
  height := img.height
  red := equalizeChannel img.width img.height img.red
  green := equalizeChannel img.width img.height img.green
  blue := equalizeChannel img.width img.height img.blue

/-- Channel selector (0 = red, 1 = green, 2 = blue), used to state
per-channel properties uniformly. -/
def Image.channel (img : Image) (c : Fin 3) : Nat → Nat → Fin 256 :=
  if c = 0 then img.red else if c = 1 then img.green else img.blue

/-- `Binarize` (main.cpp:210-229): per pixel and per channel, `0` if the
value is strictly below the channel's cut point, else `255`. -/
def Binarize (img : Image)
    (red_cut_point green_cut_point blue_cut_point : Fin 256) : Image where
  width := img.width
  height := img.height
  red := fun x y =>
    if (img.red x y : Nat) < (red_cut_point : Nat) then 0 else 255
  green := fun x y =>
    if (img.green x y : Nat) < (green_cut_point : Nat) then 0 else 255
  blue := fun x y =>
    if (img.blue x y : Nat) < (blue_cut_point : Nat) then 0 else 255

/-- `Cutout` (main.cpp:298): fixed cut point 128 on every channel. -/
def Cutout (img : Image) : Image := Binarize img 128 128 128

/-- Loop of `std::max_element` as used by the `get_index_of_max_value`
lambda (main.cpp:305-308): scan `fuel` indices starting at `i`, replacing
the current best index only on a strictly greater value, so the first
maximum wins. -/
def maxScan {α : Type} [LinearOrder α] (f : Nat → α) : Nat → Nat → Nat → Nat
  | _, best, 0 => best
  | i, best, fuel + 1 =>
    maxScan f (i + 1) (if f best < f i then i else best) fuel

/-- The `get_index_of_max_value` lambda of `TwoPeaks` (main.cpp:305-308):
index of the first maximum of `f` on `[0, size)`. -/
def get_index_of_max_value {α : Type} [LinearOrder α] (f : Nat → α)
    (size : Nat) : Nat :=
  maxScan f 1 0 (size - 1)

/-- Value of `*std::max_element(f, f + size)`, as taken by
`CreateHistogramImage` for each channel's maximum count (main.cpp:179-181). -/
def maxChannelValue (f : Nat → Nat) (size : Nat) : Nat :=
  f (get_index_of_max_value f size)

/-- `r` is the lowest index maximizing `f` on `[0, n)`. -/
def IsLeastArgmaxOn {α : Type} [LinearOrder α] (f : Nat → α) (n r : Nat) : Prop :=
  r < n ∧ (∀ j, j < n → f j ≤ f r) ∧ ∀ j, j < r → f j < f r

/-- Two's-complement wraparound of 32-bit signed `int` arithmetic: the
representative of `z` modulo `2^32` lying in `[-2^31, 2^31)`. -/
def wrap32 (z : Int) : Int := (z + 2147483648) % 4294967296 - 2147483648

/-- One entry of the `*_sparse_distances` arrays of `TwoPeaks`
(main.cpp:314-329).  The product `(i - peak) * (i - peak) * hist[i]` is
evaluated in 32-bit `int` — only the finished product is widened to the
`int64_t` array element — so it is wrapped. -/
def sparseDistance (hist : Nat → Nat) (peak i : Nat) : Int :=
  wrap32 (((i : Int) - peak) * ((i : Int) - peak) * hist i)

/-- The weighted squared distance `(i - peak1)^2 * histogram[i]` as the spec
words it: the exact value, as a genuine 64-bit accumulator would compute it.
Kept separate from `sparseDistance`, which models the source's 32-bit
product, so the two can be compared. -/
def sparseDistanceExact (hist : Nat → Nat) (peak i : Nat) : Int :=
  ((i : Int) - peak) * ((i : Int) - peak) * hist i

/-- Per-channel cut point computed by `TwoPeaks` (main.cpp:302-337):
`(peak1 + peak2) >> 1`. -/
def twoPeaksCut (hist : Nat → Nat) : Nat :=
  (get_index_of_max_value hist 256 +
    get_index_of_max_value
      (fun i => sparseDistance hist (get_index_of_max_value hist 256) i)
      256) >>> 1

/-- No weighted squared distance of `hist` (about the code's first peak)
leaves the 32-bit `int` range. -/
def NoDistOverflow (hist : Nat → Nat) : Prop :=
  ∀ i, i < 256 →
    sparseDistanceExact hist (get_index_of_max_value hist 256) i < 2147483648

/-- `TwoPeaks` (main.cpp:302-340): compute the per-channel cut points and
binarize; the cast of each cut point to `byte` is `byteOfNat`. -/
def TwoPeaks (img : Image) : Image :=
  Binarize img
    (byteOfNat (twoPeaksCut ((GetHistogram img).red)))
    (byteOfNat (twoPeaksCut ((GetHistogram img).green)))
    (byteOfNat (twoPeaksCut ((GetHistogram img).blue)))

/-- Layout constant `lr_borders` of `CreateHistogramImage` (main.cpp:140). -/
def lr_borders : Nat := 30

/-- Layout constant `tb_borders` (main.cpp:141). -/
def tb_borders : Nat := 10

/-- Layout constant `in_between_borders` (main.cpp:142). -/
def in_between_borders : Nat := 30

/-- Layout constant `graph_width` (main.cpp:144). -/
def graph_width : Nat := 256

/-- Layout constant `graph_height` (main.cpp:145). -/
def graph_height : Nat := 256

/-- Dimensions of the `BmpImg graph(width, height)` constructed by
`CreateHistogramImage` (main.cpp:168-171).  They depend only on the layout
constants, never on the histogram argument; the chart drawing that follows
(which divides each bin count by the channel's maximum count in `double`)
does not affect the buffer's dimensions. -/
def CreateHistogramImage_dims (histogram : RGBHistogram) : Nat × Nat :=
  (2 * lr_borders + graph_width,
    2 * tb_borders + 2 * in_between_borders + 3 * graph_height)

/-- Scan returning the first index (of `fuel` many starting at `i`) whose
entry is nonzero, `0` if none is found. -/
def scanFirstNonzeroIdx (f : Nat → Nat) : Nat → Nat → Nat
  | _, 0 => 0
  | i, fuel + 1 => if f i ≠ 0 then i else scanFirstNonzeroIdx f (i + 1) fuel

/-- Modelled from the spec: the `MedianGreyLevel` thresholding strategy is
code of this repository that is not under `src/` (main.cpp implements only
the fixed cutout and two-peaks strategies).  Per the spec's words:
`min_intensity` = lowest index with nonzero histogram count, `max_intensity`
= index of the peak (highest-frequency) bin — first match on ties, as in the
repository's other scans — and cut point = `(max_intensity - min_intensity)
>> 1`, deliberately not offset by `min_intensity`. -/
def medianGreyLevelCut (hist : Nat → Nat) : Nat :=
  (get_index_of_max_value hist 256 - scanFirstNonzeroIdx hist 0 256) >>> 1

/-- Modelled from the spec: the `MedianGreyLevel` strategy's cut points are
consumed by the shared `Binarize`, like the other strategies'. -/
def MedianGreyLevel (img : Image) : Image :=
  Binarize img
    (byteOfNat (medianGreyLevelCut ((GetHistogram img).red)))
    (byteOfNat (medianGreyLevelCut ((GetHistogram img).green)))
    (byteOfNat (medianGreyLevelCut ((GetHistogram img).blue)))

/-- A 1×1 image with all channels at 100 (the spec's degenerate-equalization
scenario). -/
def img100 : Image where
  width := 1
  height := 1
  red := fun _ _ => 100
  green := fun _ _ => 100
  blue := fun _ _ => 100

/-- An empty (0×0) image. -/
def img0 : Image where
  width := 0
  height := 0
  red := fun _ _ => 0
  green := fun _ _ => 0
  blue := fun _ _ => 0

/-- Channel plane taking value 0 on the first 34574 columns and 255 on the
remaining ones. -/
def ovfChan : Nat → Nat → Fin 256 := fun x _ => if x < 34574 then 0 else 255

/-- A 67600×1 image with all three channels `ovfChan`: large enough that one
two-peaks weighted distance product exceeds the 32-bit `int` range. -/
def ovfImg : Image where
  width := 67600
  height := 1
  red := ovfChan
  green := ovfChan
  blue := ovfChan

/-- The (red) channel histogram of `ovfImg`. -/
def ovfHist : Nat → Nat := channelHist 67600 1 ovfChan

/-- Channel plane that is uniformly 50 except for the single pixel (0, 0)
at 200. -/
def chan50 : Nat → Nat → Fin 256 := fun x y => if x = 0 ∧ y = 0 then 200 else 50

/-- A 2×2 image, uniformly 50 on every channel except the single pixel
(0, 0) at 200 (the spec's two-peaks scenario). -/
def img50 : Image where
  width := 2
  height := 2
  red := chan50
  green := chan50
  blue := chan50

/-- The (red) channel histogram of `img50`. -/
def hist50 : Nat → Nat := channelHist 2 2 chan50

/-- Channel plane taking value 10 at x = 0 and 20 elsewhere. -/
def chanTV : Nat → Nat → Fin 256 := fun x _ => if x = 0 then 10 else 20

/-- A 2×1 image whose channels take value 10 at x = 0 and 20 at x = 1. -/
def imgTwoVals : Image where
  width := 2
  height := 1
  red := chanTV
  green := chanTV
  blue := chanTV

/-- The (red) channel histogram of `imgTwoVals`. -/
def histTV : Nat → Nat := channelHist 2 1 chanTV

lemma channelHist_sum (w h : Nat) (chan : Nat → Nat → Fin 256) :
    ∑ v in Finset.range 256, channelHist w h chan v = w * h := by
  unfold channelHist
  rw [Finset.sum_comm]
  have hrow : ∀ x : Nat,
      ∑ v in Finset.range 256, ∑ y in Finset.range h,
        (if (chan x y : Nat) = v then (1 : Nat) else 0) = h := by
    intro x
    rw [Finset.sum_comm]
    have hcell : ∀ y : Nat,
        ∑ v in Finset.range 256,
          (if (chan x y : Nat) = v then (1 : Nat) else 0) = 1 := by
      intro y
      rw [Finset.sum_ite_eq]
      simp [Finset.mem_range, (chan x y).isLt]
    simp [hcell]
  rw [Finset.sum_congr rfl fun x _ => hrow x]
  simp [Finset.sum_const, Finset.card_range]

lemma one_le_channelHist (w h : Nat) (chan : Nat → Nat → Fin 256)
    (x y : Nat) (hx : x < w) (hy : y < h) :
    1 ≤ channelHist w h chan (chan x y : Nat) := by
  unfold channelHist
  have h1 : (1 : Nat) ≤ ∑ y' in Finset.range h,
      if (chan x y' : Nat) = (chan x y : Nat) then 1 else 0 := by
    have hmem : y ∈ Finset.range h := Finset.mem_range.mpr hy
    have := Finset.single_le_sum
      (f := fun y' => if (chan x y' : Nat) = (chan x y : Nat) then (1 : Nat) else 0)
      (fun i _ => Nat.zero_le _) hmem
    simpa using this
  have h2 := Finset.single_le_sum
    (f := fun x' => ∑ y' in Finset.range h,
      if (chan x' y' : Nat) = (chan x y : Nat) then (1 : Nat) else 0)
    (fun i _ => Nat.zero_le _) (Finset.mem_range.mpr hx)
  exact le_trans h1 h2

lemma channelHist_eq_zero_of_ge (w h : Nat) (chan : Nat → Nat → Fin 256)
    (v : Nat) (hv : 256 ≤ v) : channelHist w h chan v = 0 := by
  unfold channelHist
  refine Finset.sum_eq_zero fun x _ => Finset.sum_eq_zero fun y _ => ?_
  have := (chan x y).isLt
  rw [if_neg]
  omega

lemma lt_of_channelHist_ne_zero (w h : Nat) (chan : Nat → Nat → Fin 256)
    (v : Nat) (hv : channelHist w h chan v ≠ 0) : v < 256 := by
  by_contra hc
  exact hv (channelHist_eq_zero_of_ge w h chan v (by omega))

lemma channelHist_le (w h : Nat) (chan : Nat → Nat → Fin 256) (v : Nat) :
    channelHist w h chan v ≤ w * h := by
  unfold channelHist
  calc ∑ x in Finset.range w, ∑ y in Finset.range h,
        (if (chan x y : Nat) = v then (1 : Nat) else 0)
      ≤ ∑ x in Finset.range w, ∑ y in Finset.range h, 1 := by
        refine Finset.sum_le_sum fun x _ => Finset.sum_le_sum fun y _ => ?_
        split <;> omega
    _ = w * h := by simp

/-- C1: for every image, each of the three channels of the histogram produced
by `GetHistogram` has its 256 bin counts summing to `width * height`. -/
theorem getHistogram_channel_sums_eq_pixel_count (img : Image) :
    (∑ v in Finset.range 256, (GetHistogram img).red v
        = img.width * img.height) ∧
    (∑ v in Finset.range 256, (GetHistogram img).green v
        = img.width * img.height) ∧
    (∑ v in Finset.range 256, (GetHistogram img).blue v
        = img.width * img.height) :=
  ⟨channelHist_sum img.width img.height img.red,
   channelHist_sum img.width img.height img.green,
   channelHist_sum img.width img.height img.blue⟩

lemma cdf_eq_sum (hist : Nat → Nat) (i : Nat) :
    cdf hist i = ∑ j in Finset.range (i + 1), hist j := by
  induction i with
  | zero => simp [cdf]
  | succ n ih => rw [Finset.sum_range_succ, ← ih, cdf]; omega

lemma cdf_eq_zero (hist : Nat → Nat) (i : Nat)
    (h : ∀ j, j ≤ i → hist j = 0) : cdf hist i = 0 := by
  rw [cdf_eq_sum]
  exact Finset.sum_eq_zero fun k hk => h k (by
    have := Finset.mem_range.mp hk; omega)

lemma cdf_first (hist : Nat → Nat) (k : Nat)
    (hk : ∀ j, j < k → hist j = 0) : cdf hist k = hist k := by
  rw [cdf_eq_sum, Finset.sum_range_succ]
  have : ∑ j in Finset.range k, hist j = 0 :=
    Finset.sum_eq_zero fun j hj => hk j (Finset.mem_range.mp hj)
  omega

lemma scanFirstNonzero_eq (f : Nat → Nat) :
    ∀ fuel i k, i ≤ k → k < i + fuel →
      (∀ j, i ≤ j → j < k → f j = 0) → f k ≠ 0 →
      scanFirstNonzero f i fuel = f k := by
  intro fuel
  induction fuel with
  | zero => intro i k h1 h2 _ _; omega
  | succ n ih =>
    intro i k h1 h2 hzero hk
    by_cases hi : f i ≠ 0
    · have hik : i = k := by
        by_contra hne
        exact hi (hzero i le_rfl (by omega))
      rw [scanFirstNonzero, if_pos hi, hik]
    · push_neg at hi
      have hik : i ≠ k := fun h => hk (h ▸ hi)
      rw [scanFirstNonzero, if_neg (by simpa using hi)]
      exact ih (i + 1) k (by omega) (by omega)
        (fun j hj1 hj2 => hzero j (by omega) hj2) hk

lemma scanFirstNonzeroIdx_eq (f : Nat → Nat) :
    ∀ fuel i k, i ≤ k → k < i + fuel →
      (∀ j, i ≤ j → j < k → f j = 0) → f k ≠ 0 →
      scanFirstNonzeroIdx f i fuel = k := by
  intro fuel
  induction fuel with
  | zero => intro i k h1 h2 _ _; omega
  | succ n ih =>
    intro i k h1 h2 hzero hk
    by_cases hi : f i ≠ 0
    · have hik : i = k := by
        by_contra hne
        exact hi (hzero i le_rfl (by omega))
      rw [scanFirstNonzeroIdx, if_pos hi, hik]
    · push_neg at hi
      have hik : i ≠ k := fun h => hk (h ▸ hi)
      rw [scanFirstNonzeroIdx, if_neg (by simpa using hi)]
      exact ih (i + 1) k (by omega) (by omega)
        (fun j hj1 hj2 => hzero j (by omega) hj2) hk

lemma maxScan_spec {α : Type} [LinearOrder α] (f : Nat → α) :
    ∀ fuel i best, best < i → (∀ j, j < i → f j ≤ f best) →
      (∀ j, j < best → f j < f best) →
      IsLeastArgmaxOn f (i + fuel) (maxScan f i best fuel) := by
  intro fuel
  induction fuel with
  | zero =>
    intro i best h1 h2 h3
    exact ⟨by simpa using h1, by simpa using h2, h3⟩
  | succ n ih =>
    intro i best h1 h2 h3
    rw [maxScan]
    have harr : i + (n + 1) = (i + 1) + n := by omega
    rw [harr]
    by_cases hlt : f best < f i
    · rw [if_pos hlt]
      refine ih (i + 1) i (by omega) ?_ ?_
      · intro j hj
        rcases Nat.lt_succ_iff_lt_or_eq.mp hj with h | h
        · exact le_of_lt (lt_of_le_of_lt (h2 j h) hlt)
        · exact h ▸ le_rfl
      · intro j hj
        exact lt_of_le_of_lt (h2 j hj) hlt
    · rw [if_neg hlt]
      refine ih (i + 1) best (by omega) ?_ h3
      intro j hj
      rcases Nat.lt_succ_iff_lt_or_eq.mp hj with h | h
      · exact h2 j h
      · exact h ▸ not_lt.mp hlt

lemma get_index_of_max_value_spec {α : Type} [LinearOrder α] (f : Nat → α)
    (size : Nat) (h : 0 < size) :
    IsLeastArgmaxOn f size (get_index_of_max_value f size) := by
  have hs := maxScan_spec f (size - 1) 1 0 (by omega)
    (fun j hj => by
      have : j = 0 := by omega
      exact this ▸ le_rfl)
    (fun j hj => by omega)
  have harr : 1 + (size - 1) = size := by omega
  rw [harr] at hs
  exact hs

lemma IsLeastArgmaxOn.unique {α : Type} [LinearOrder α] {f : Nat → α}
    {n r s : Nat} (hr : IsLeastArgmaxOn f n r) (hs : IsLeastArgmaxOn f n s) :
    r = s := by
  obtain ⟨hr1, hr2, hr3⟩ := hr
  obtain ⟨hs1, hs2, hs3⟩ := hs
  rcases lt_trichotomy r s with h | h | h
  · exact absurd (lt_of_lt_of_le (hs3 r h) (hr2 s hs1)) (lt_irrefl _)
  · exact h
  · exact absurd (lt_of_lt_of_le (hr3 s h) (hs2 r hr1)) (lt_irrefl _)

lemma get_index_of_max_value_eq {α : Type} [LinearOrder α] {f : Nat → α}
    {size r : Nat} (h : IsLeastArgmaxOn f size r) :
    get_index_of_max_value f size = r :=
  IsLeastArgmaxOn.unique
    (get_index_of_max_value_spec f size (lt_of_le_of_lt (Nat.zero_le r) h.1)) h

lemma IsLeastArgmaxOn.congr {α : Type} [LinearOrder α] {f g : Nat → α}
    {n r : Nat} (hfg : ∀ i, i < n → f i = g i)
    (h : IsLeastArgmaxOn f n r) : IsLeastArgmaxOn g n r := by
  obtain ⟨h1, h2, h3⟩ := h
  refine ⟨h1, fun j hj => ?_, fun j hj => ?_⟩
  · rw [← hfg j hj, ← hfg r h1]; exact h2 j hj
  · rw [← hfg j (by omega), ← hfg r h1]; exact h3 j hj

lemma wrap32_eq_self {z : Int} (h1 : -2147483648 ≤ z) (h2 : z < 2147483648) :
    wrap32 z = z := by
  unfold wrap32
  have hmod : (z + 2147483648) % 4294967296 = z + 2147483648 :=
    Int.emod_eq_of_lt (by omega) (by omega)
  omega

lemma sparseDistanceExact_nonneg (hist : Nat → Nat) (p i : Nat) :
    0 ≤ sparseDistanceExact hist p i := by
  unfold sparseDistanceExact
  exact mul_nonneg (mul_self_nonneg _) (Int.natCast_nonneg _)

lemma sparseDistanceExact_le (w h : Nat) (chan : Nat → Nat → Fin 256)
    (p i : Nat) (hp : p < 256) (hi : i < 256) :
    sparseDistanceExact (channelHist w h chan) p i ≤ 65025 * (w * h) := by
  unfold sparseDistanceExact
  have hi' : (i : Int) < 256 := by exact_mod_cast hi
  have hp' : (p : Int) < 256 := by exact_mod_cast hp
  have hi0 : (0 : Int) ≤ i := Int.natCast_nonneg _
  have hp0 : (0 : Int) ≤ p := Int.natCast_nonneg _
  have hd1 : ((i : Int) - p) * ((i : Int) - p) ≤ 65025 := by nlinarith
  have hh : (channelHist w h chan i : Int) ≤ (w * h : Nat) := by
    exact_mod_cast channelHist_le w h chan i
  calc ((i : Int) - p) * ((i : Int) - p) * (channelHist w h chan i : Int)
      ≤ 65025 * (channelHist w h chan i : Int) := by
        exact mul_le_mul_of_nonneg_right hd1 (Int.natCast_nonneg _)
    _ ≤ 65025 * ((w * h : Nat) : Int) := by
        exact mul_le_mul_of_nonneg_left hh (by norm_num)
    _ = 65025 * (w * h) := by push_cast; ring

lemma get_min_on_cdf_eq_first (hist : Nat → Nat) (k : Nat) (hk : k < 256)
    (hzero : ∀ j, j < k → hist j = 0) (hkval : hist k ≠ 0) :
    get_min_on_cdf (cdf hist) 256 = hist k := by
  have hcdfk : cdf hist k = hist k := cdf_first hist k hzero
  have h := scanFirstNonzero_eq (cdf hist) 256 0 k (Nat.zero_le k)
    (by omega)
    (fun j _ hj => cdf_eq_zero hist j (fun l hl => hzero l (by omega)))
    (by rw [hcdfk]; exact hkval)
  rw [get_min_on_cdf, h, hcdfk]

lemma equalizeChannel_least (w h : Nat) (chan : Nat → Nat → Fin 256)
    (x y : Nat) (hx : x < w) (hy : y < h)
    (hlow : ∀ j, j < (chan x y : Nat) → channelHist w h chan j = 0) :
    equalizeChannel w h chan x y = 0 := by
  have hval : channelHist w h chan (chan x y : Nat) ≠ 0 := by
    have := one_le_channelHist w h chan x y hx hy
    omega
  have hmin := get_min_on_cdf_eq_first (channelHist w h chan) (chan x y : Nat)
    (chan x y).isLt hlow hval
  have hcdfv := cdf_first (channelHist w h chan) (chan x y : Nat) hlow
  unfold equalizeChannel equalized_value
  rw [hmin, hcdfv, Nat.sub_self]
  simp [byteOfNat]

lemma equalizeChannel_greatest (w h : Nat) (chan : Nat → Nat → Fin 256)
    (x y : Nat) (hx : x < w) (hy : y < h)
    (hdist : ∃ u v : Nat, u ≠ v ∧ channelHist w h chan u ≠ 0 ∧
      channelHist w h chan v ≠ 0)
    (hhigh : ∀ j, (chan x y : Nat) < j → channelHist w h chan j = 0) :
    equalizeChannel w h chan x y = 255 := by
  set hist := channelHist w h chan with hhist
  have hval : hist (chan x y : Nat) ≠ 0 := by
    have := one_le_channelHist w h chan x y hx hy
    rw [← hhist] at this
    omega
  -- the cumulative count at the pixel's (maximal) value is the total
  have hcdfv : cdf hist (chan x y : Nat) = w * h := by
    rw [cdf_eq_sum]
    have hsub : Finset.range ((chan x y : Nat) + 1) ⊆ Finset.range 256 := by
      intro t ht
      have := Finset.mem_range.mp ht
      have := (chan x y).isLt
      exact Finset.mem_range.mpr (by omega)
    rw [Finset.sum_subset hsub (fun t ht hnt => by
      refine hhigh t ?_
      have h1 := Finset.mem_range.mp ht
      have h2 : ¬t < (chan x y : Nat) + 1 := fun hc => hnt (Finset.mem_range.mpr hc)
      omega)]
    exact channelHist_sum w h chan
  -- the least occurring intensity and the value of get_min_on_cdf
  have hex : ∃ v, hist v ≠ 0 := ⟨(chan x y : Nat), hval⟩
  set m0 := Nat.find hex with hm0def
  have hm0 : hist m0 ≠ 0 := Nat.find_spec hex
  have hm0min : ∀ j, j < m0 → hist j = 0 := by
    intro j hj
    have := Nat.find_min hex hj
    simpa using this
  have hm0lt : m0 < 256 := lt_of_channelHist_ne_zero w h chan m0 hm0
  have hmin := get_min_on_cdf_eq_first hist m0 hm0lt hm0min hm0
  -- a second occurring intensity makes the minimum strictly below the total
  have hmlt : hist m0 < w * h := by
    obtain ⟨u, v, huv, hu, hv⟩ := hdist
    have hother : ∃ u', u' ≠ m0 ∧ hist u' ≠ 0 := by
      rcases eq_or_ne u m0 with h | h
      · exact ⟨v, by omega, hv⟩
      · exact ⟨u, h, hu⟩
    obtain ⟨u', hne, hu'⟩ := hother
    have hu'lt : u' < 256 := lt_of_channelHist_ne_zero w h chan u' hu'
    have hpair : ({m0, u'} : Finset Nat) ⊆ Finset.range 256 := by
      intro t ht
      rcases Finset.mem_insert.mp ht with h | h
      · exact Finset.mem_range.mpr (h ▸ hm0lt)
      · have := Finset.mem_singleton.mp h
        exact Finset.mem_range.mpr (this ▸ hu'lt)
    have hsum : hist m0 + hist u' ≤ ∑ t in Finset.range 256, hist t := by
      have := Finset.sum_le_sum_of_subset hpair (f := hist)
      rwa [Finset.sum_pair (by omega : m0 ≠ u')] at this
    have htot : ∑ t in Finset.range 256, hist t = w * h := channelHist_sum w h chan
    omega
  unfold equalizeChannel equalized_value
  rw [← hhist, hmin, hcdfv, Nat.mul_div_cancel 255 (by omega : 0 < w * h - hist m0)]
  decide

lemma Equalize_channel_comm (img : Image) (c : Fin 3) :
    (Equalize img).channel c =
      equalizeChannel img.width img.height (img.channel c) := by
  fin_cases c <;> rfl

/-- C9: for every image with at least one pixel and at least two distinct
occurring values in a channel, `Equalize` maps every pixel holding that
channel's lowest occurring intensity to exactly 0 and every pixel holding
its highest occurring intensity to exactly 255. -/
theorem Equalize_maps_extreme_intensities (img : Image) (c : Fin 3)
    (x y : Nat) (hx : x < img.width) (hy : y < img.height)
    (hdist : ∃ u v : Nat, u ≠ v ∧
      channelHist img.width img.height (img.channel c) u ≠ 0 ∧
      channelHist img.width img.height (img.channel c) v ≠ 0) :
    ((∀ j, j < (img.channel c x y : Nat) →
        channelHist img.width img.height (img.channel c) j = 0) →
      (Equalize img).channel c x y = 0) ∧
    ((∀ j, (img.channel c x y : Nat) < j →
        channelHist img.width img.height (img.channel c) j = 0) →
      (Equalize img).channel c x y = 255) := by
  constructor
  · intro hlow
    rw [Equalize_channel_comm]
    exact equalizeChannel_least img.width img.height (img.channel c)
      x y hx hy hlow
  · intro hhigh
    rw [Equalize_channel_comm]
    exact equalizeChannel_greatest img.width img.height (img.channel c)
      x y hx hy hdist hhigh

set_option maxRecDepth 4096 in
/-- Witness for C9: on the 2×1 image with channel values 10 and 20, the
pixel holding the lowest value 10 equalizes to 0 and the pixel holding the
highest value 20 equalizes to 255. -/
theorem Equalize_maps_extreme_intensities_witness :
    (Equalize imgTwoVals).channel 0 0 0 = 0 ∧
    (Equalize imgTwoVals).channel 0 1 0 = 255 :=
  ⟨(Equalize_maps_extreme_intensities imgTwoVals 0 0 0 (by decide) (by decide)
      ⟨10, 20, by decide, by decide, by decide⟩).1 (by decide),
   (Equalize_maps_extreme_intensities imgTwoVals 0 1 0 (by decide) (by decide)
      ⟨10, 20, by decide, by decide, by decide⟩).2 (by
        intro j hj
        rcases Nat.lt_or_ge j 256 with hlt | hge
        · exact (by decide : ∀ j, j < 256 →
            (imgTwoVals.channel 0 1 0 : Nat) < j →
            channelHist imgTwoVals.width imgTwoVals.height
              (imgTwoVals.channel 0) j = 0) j hlt hj
        · exact channelHist_eq_zero_of_ge _ _ _ j hge)⟩

/-- C2 evaluated at the failing input: on the 1×1 image with all channels at
100, the code's equalization denominator `total_pixels - min_cdf` is 0 for
every channel (`total_pixels = 1`, `min_cdf = 1`), so `equalized_value`
divides by zero; no `DegenerateHistogram` error exists anywhere in the
source to be raised instead. -/
theorem equalize_denominator_zero_on_img100 :
    img100.width * img100.height = 1 ∧
    get_min_on_cdf (cdf ((GetHistogram img100).red)) 256 = 1 ∧
    get_min_on_cdf (cdf ((GetHistogram img100).green)) 256 = 1 ∧
    get_min_on_cdf (cdf ((GetHistogram img100).blue)) 256 = 1 ∧
    img100.width * img100.height -
      get_min_on_cdf (cdf ((GetHistogram img100).red)) 256 = 0 := by
  have hmin : ∀ chan : Nat → Nat → Fin 256, (∀ x y, chan x y = 100) →
      get_min_on_cdf (cdf (channelHist 1 1 chan)) 256 = 1 := by
    intro chan hc
    have h100v : ((100 : Fin 256) : Nat) = 100 := rfl
    have h100 : channelHist 1 1 chan 100 = 1 := by
      unfold channelHist
      rw [Finset.sum_range_one, Finset.sum_range_one, hc 0 0, h100v]
      simp
    have hlow : ∀ j, j < 100 → channelHist 1 1 chan j = 0 := by
      intro j hj
      unfold channelHist
      refine Finset.sum_eq_zero fun a _ => Finset.sum_eq_zero fun b _ => ?_
      rw [hc a b, h100v, if_neg (by omega)]
    have := get_min_on_cdf_eq_first (channelHist 1 1 chan) 100 (by omega)
      hlow (by omega)
    omega
  refine ⟨rfl, hmin _ fun _ _ => rfl, hmin _ fun _ _ => rfl,
    hmin _ fun _ _ => rfl, ?_⟩
  have := hmin (fun _ _ => 100) fun _ _ => rfl
  show 1 * 1 - get_min_on_cdf (cdf (channelHist 1 1 (fun _ _ => 100))) 256 = 0
  omega

set_option maxRecDepth 8192 in
/-- C7 evaluated at the failing input: on the empty 0×0 image every histogram
bin is 0, so the maximum count `*max_element(...)` that
`CreateHistogramImage` divides by is 0, and the denominator
`total_pixels - min_cdf` of `Equalize` is 0 as well; no `EmptyImage` error
exists anywhere in the source to be raised before those divisions. -/
theorem empty_image_reaches_zero_divisors :
    maxChannelValue ((GetHistogram img0).red) 256 = 0 ∧
    maxChannelValue ((GetHistogram img0).green) 256 = 0 ∧
    maxChannelValue ((GetHistogram img0).blue) 256 = 0 ∧
    img0.width * img0.height = 0 ∧
    img0.width * img0.height -
      get_min_on_cdf (cdf ((GetHistogram img0).red)) 256 = 0 := by
  refine ⟨?_, ?_, ?_, rfl, rfl⟩ <;>
  · show channelHist 0 0 (fun _ _ => 0)
      (get_index_of_max_value (channelHist 0 0 (fun _ _ => 0)) 256) = 0
    unfold channelHist
    simp

/-- C3: for every image, every cut-point triple and every pixel, `Binarize`
sets each channel to 0 exactly when the input value is strictly below that
channel's cut point and to 255 otherwise; in particular every output channel
value is 0 or 255. -/
theorem Binarize_thresholds_pixels (img : Image) (rc gc bc : Fin 256)
    (x y : Nat) :
    ((Binarize img rc gc bc).red x y
      = if (img.red x y : Nat) < (rc : Nat) then 0 else 255) ∧
    ((Binarize img rc gc bc).green x y
      = if (img.green x y : Nat) < (gc : Nat) then 0 else 255) ∧
    ((Binarize img rc gc bc).blue x y
      = if (img.blue x y : Nat) < (bc : Nat) then 0 else 255) ∧
    ((Binarize img rc gc bc).red x y = 0 ∨
      (Binarize img rc gc bc).red x y = 255) ∧
    ((Binarize img rc gc bc).green x y = 0 ∨
      (Binarize img rc gc bc).green x y = 255) ∧
    ((Binarize img rc gc bc).blue x y = 0 ∨
      (Binarize img rc gc bc).blue x y = 255) := by
  refine ⟨rfl, rfl, rfl, ?_, ?_, ?_⟩ <;>
  · show (if _ < _ then (0 : Fin 256) else 255) = 0 ∨
      (if _ < _ then (0 : Fin 256) else 255) = 255
    split
    · exact Or.inl rfl
    · exact Or.inr rfl

/-- C10: `Binarize` is idempotent — applying it twice with the same
cut-point triple equals applying it once (0 and 255 are fixed under a
second pass with any byte-valued cut points). -/
theorem Binarize_idempotent (img : Image) (rc gc bc : Fin 256) :
    Binarize (Binarize img rc gc bc) rc gc bc = Binarize img rc gc bc := by
  have key : ∀ (c : Fin 256) (v : Fin 256),
      (if ((if (v : Nat) < (c : Nat) then (0 : Fin 256) else 255) : Fin 256).val
          < (c : Nat) then (0 : Fin 256) else 255)
        = if (v : Nat) < (c : Nat) then (0 : Fin 256) else 255 := by
    intro c v
    have hc := c.isLt
    have h0 : ((0 : Fin 256) : Nat) = 0 := rfl
    have h255 : ((255 : Fin 256) : Nat) = 255 := rfl
    by_cases h : (v : Nat) < (c : Nat)
    · rw [if_pos h, h0, if_pos (show 0 < (c : Nat) by omega)]
    · rw [if_neg h, h255, if_neg (show ¬255 < (c : Nat) by omega)]
  refine Image.ext rfl rfl ?_ ?_ ?_ <;> funext x y
  · exact key rc (img.red x y)
  · exact key gc (img.green x y)
  · exact key bc (img.blue x y)

lemma sum_ite_lt (n m : Nat) :
    ∑ x in Finset.range n, (if x < m then (1 : Nat) else 0) = min m n := by
  induction n with
  | zero => simp
  | succ k ih =>
    rw [Finset.sum_range_succ, ih]
    by_cases h : k < m
    · rw [if_pos h]; omega
    · rw [if_neg h]; omega

lemma sum_ite_ge (n m : Nat) :
    ∑ x in Finset.range n, (if x < m then (0 : Nat) else 1) = n - min m n := by
  induction n with
  | zero => simp
  | succ k ih =>
    rw [Finset.sum_range_succ, ih]
    by_cases h : k < m
    · rw [if_pos h]; omega
    · rw [if_neg h]; omega

lemma ovfHist_eq (v : Nat) :
    ovfHist v = ∑ x in Finset.range 67600,
      (if (ovfChan x 0 : Nat) = v then (1 : Nat) else 0) := by
  unfold ovfHist channelHist
  refine Finset.sum_congr rfl fun x _ => ?_
  rw [Finset.sum_range_one]

lemma ovfChan_val (x : Nat) :
    (ovfChan x 0 : Nat) = if x < 34574 then 0 else 255 := by
  unfold ovfChan
  by_cases h : x < 34574
  · rw [if_pos h, if_pos h]
    rfl
  · rw [if_neg h, if_neg h]
    rfl

lemma ovfHist_0 : ovfHist 0 = 34574 := by
  rw [ovfHist_eq]
  have hterm : ∀ x : Nat, (if (ovfChan x 0 : Nat) = 0 then (1 : Nat) else 0)
      = if x < 34574 then 1 else 0 := by
    intro x
    rw [ovfChan_val]
    by_cases h : x < 34574 <;> simp [h]
  rw [Finset.sum_congr rfl fun x _ => hterm x, sum_ite_lt]
  omega

lemma ovfHist_255 : ovfHist 255 = 33026 := by
  rw [ovfHist_eq]
  have hterm : ∀ x : Nat, (if (ovfChan x 0 : Nat) = 255 then (1 : Nat) else 0)
      = if x < 34574 then 0 else 1 := by
    intro x
    rw [ovfChan_val]
    by_cases h : x < 34574 <;> simp [h]
  rw [Finset.sum_congr rfl fun x _ => hterm x, sum_ite_ge]
  omega

lemma ovfHist_other (v : Nat) (h0 : v ≠ 0) (h255 : v ≠ 255) :
    ovfHist v = 0 := by
  rw [ovfHist_eq]
  refine Finset.sum_eq_zero fun x _ => ?_
  rw [ovfChan_val]
  by_cases h : x < 34574
  · rw [if_pos h, if_neg (by omega)]
  · rw [if_neg h, if_neg (by omega)]

lemma ovf_peak1 : get_index_of_max_value ovfHist 256 = 0 := by
  apply get_index_of_max_value_eq
  refine ⟨by norm_num, fun j hj => ?_, fun j hj => by omega⟩
  rw [ovfHist_0]
  rcases eq_or_ne j 0 with rfl | hj0
  · rw [ovfHist_0]
  · rcases eq_or_ne j 255 with rfl | hj255
    · rw [ovfHist_255]; omega
    · rw [ovfHist_other j hj0 hj255]; omega

lemma ovf_dist_0 : sparseDistance ovfHist 0 0 = 0 := by
  unfold sparseDistance
  rw [ovfHist_0]
  decide

lemma ovf_dist_255 : sparseDistance ovfHist 0 255 = -2147451646 := by
  unfold sparseDistance
  rw [ovfHist_255]
  decide

lemma ovf_dist_other (i : Nat) (h0 : i ≠ 0) (h255 : i ≠ 255) :
    sparseDistance ovfHist 0 i = 0 := by
  unfold sparseDistance
  rw [ovfHist_other i h0 h255]
  push_cast
  rw [mul_zero]
  decide

lemma ovf_exact_0 : sparseDistanceExact ovfHist 0 0 = 0 := by
  unfold sparseDistanceExact
  norm_num

lemma ovf_exact_255 : sparseDistanceExact ovfHist 0 255 = 2147515650 := by
  unfold sparseDistanceExact
  rw [ovfHist_255]
  decide

lemma ovf_exact_other (i : Nat) (h0 : i ≠ 0) (h255 : i ≠ 255) :
    sparseDistanceExact ovfHist 0 i = 0 := by
  unfold sparseDistanceExact
  rw [ovfHist_other i h0 h255]
  push_cast
  ring

lemma ovf_peak2 :
    get_index_of_max_value (fun i => sparseDistance ovfHist 0 i) 256 = 0 := by
  apply get_index_of_max_value_eq
  refine ⟨by norm_num, fun j hj => ?_, fun j hj => by omega⟩
  show sparseDistance ovfHist 0 j ≤ sparseDistance ovfHist 0 0
  rw [ovf_dist_0]
  rcases eq_or_ne j 0 with rfl | hj0
  · rw [ovf_dist_0]
  · rcases eq_or_ne j 255 with rfl | hj255
    · rw [ovf_dist_255]; norm_num
    · rw [ovf_dist_other j hj0 hj255]

lemma twoPeaksCut_eq_of (hist : Nat → Nat) (a b : Nat)
    (h1 : get_index_of_max_value hist 256 = a)
    (h2 : get_index_of_max_value (fun i => sparseDistance hist a i) 256 = b) :
    twoPeaksCut hist = (a + b) >>> 1 := by
  unfold twoPeaksCut
  rw [h1, h2]

lemma ovf_cut : twoPeaksCut ovfHist = 0 := by
  have h := twoPeaksCut_eq_of ovfHist 0 0 ovf_peak1 ovf_peak2
  rw [h]
  decide

lemma twoPeaksCut_spec (hist : Nat → Nat) (hov : NoDistOverflow hist) :
    ∃ p1 p2 : Nat, IsLeastArgmaxOn hist 256 p1 ∧
      IsLeastArgmaxOn (sparseDistanceExact hist p1) 256 p2 ∧
      twoPeaksCut hist = (p1 + p2) >>> 1 := by
  refine ⟨get_index_of_max_value hist 256,
    get_index_of_max_value
      (fun i => sparseDistance hist (get_index_of_max_value hist 256) i) 256,
    get_index_of_max_value_spec hist 256 (by norm_num), ?_, rfl⟩
  refine IsLeastArgmaxOn.congr ?_
    (get_index_of_max_value_spec
      (fun i => sparseDistance hist (get_index_of_max_value hist 256) i) 256
      (by norm_num))
  intro i hi
  show sparseDistance hist (get_index_of_max_value hist 256) i
    = sparseDistanceExact hist (get_index_of_max_value hist 256) i
  have h1 := sparseDistanceExact_nonneg hist (get_index_of_max_value hist 256) i
  have h2 := hov i hi
  unfold sparseDistance
  unfold sparseDistanceExact at h1 h2 ⊢
  exact wrap32_eq_self (by omega) (by omega)

lemma hist50_50 : hist50 50 = 3 := by decide

lemma hist50_200 : hist50 200 = 1 := by decide

lemma hist50_other (v : Nat) (h1 : v ≠ 50) (h2 : v ≠ 200) : hist50 v = 0 := by
  unfold hist50 channelHist
  refine Finset.sum_eq_zero fun x _ => Finset.sum_eq_zero fun y _ => ?_
  unfold chan50
  by_cases h : x = 0 ∧ y = 0
  · rw [if_pos h, (show ((200 : Fin 256) : Nat) = 200 from rfl),
      if_neg (by omega)]
  · rw [if_neg h, (show ((50 : Fin 256) : Nat) = 50 from rfl),
      if_neg (by omega)]

lemma img50_p1 : get_index_of_max_value hist50 256 = 50 := by
  apply get_index_of_max_value_eq
  refine ⟨by norm_num, fun j hj => ?_, fun j hj => ?_⟩
  · rw [hist50_50]
    rcases eq_or_ne j 50 with rfl | h50
    · rw [hist50_50]
    · rcases eq_or_ne j 200 with rfl | h200
      · rw [hist50_200]; omega
      · rw [hist50_other j h50 h200]; omega
  · rw [hist50_50, hist50_other j (by omega) (by omega)]
    omega

lemma img50_d50 : sparseDistance hist50 50 50 = 0 := by
  unfold sparseDistance
  rw [hist50_50]
  decide

lemma img50_d200 : sparseDistance hist50 50 200 = 22500 := by
  unfold sparseDistance
  rw [hist50_200]
  decide

lemma img50_dother (i : Nat) (h1 : i ≠ 50) (h2 : i ≠ 200) :
    sparseDistance hist50 50 i = 0 := by
  unfold sparseDistance
  rw [hist50_other i h1 h2]
  push_cast
  rw [mul_zero]
  decide

lemma img50_p2 :
    get_index_of_max_value (fun i => sparseDistance hist50 50 i) 256 = 200 := by
  apply get_index_of_max_value_eq
  refine ⟨by norm_num, fun j hj => ?_, fun j hj => ?_⟩
  · show sparseDistance hist50 50 j ≤ sparseDistance hist50 50 200
    rw [img50_d200]
    rcases eq_or_ne j 50 with rfl | h50
    · rw [img50_d50]; norm_num
    · rcases eq_or_ne j 200 with rfl | h200
      · rw [img50_d200]
      · rw [img50_dother j h50 h200]; norm_num
  · show sparseDistance hist50 50 j < sparseDistance hist50 50 200
    rw [img50_d200]
    rcases eq_or_ne j 50 with rfl | h50
    · rw [img50_d50]; norm_num
    · rw [img50_dother j h50 (by omega)]; norm_num

lemma img50_cut : twoPeaksCut hist50 = 125 := by
  have h := twoPeaksCut_eq_of hist50 50 200 img50_p1 img50_p2
  rw [h]
  decide

lemma img50_no_overflow : NoDistOverflow hist50 := by
  intro i hi
  have hp : get_index_of_max_value hist50 256 < 256 := by
    rw [img50_p1]; omega
  have hb : sparseDistanceExact (channelHist 2 2 chan50)
      (get_index_of_max_value hist50 256) i ≤ 65025 * (2 * 2) :=
    sparseDistanceExact_le 2 2 chan50 (get_index_of_max_value hist50 256) i hp hi
  show sparseDistanceExact (channelHist 2 2 chan50)
    (get_index_of_max_value hist50 256) i < 2147483648
  omega

/-- C4 (amended): provided no weighted squared distance of a channel leaves
the 32-bit `int` range — as in the spec's concrete scenario — `TwoPeaks`
computes for each channel `peak1` = the lowest index maximizing the
histogram count, `peak2` = the lowest index maximizing the exact weighted
squared distance `(i - peak1)^2 * histogram[i]`, and the cut point
`(peak1 + peak2) >> 1`, and feeds the three cut points to `Binarize`.  (The
unamended claim fails on `ovfImg`, where a 32-bit product wraps and changes
`peak2`.) -/
theorem twoPeaks_peaks_and_cut (img : Image)
    (hr : NoDistOverflow ((GetHistogram img).red))
    (hg : NoDistOverflow ((GetHistogram img).green))
    (hb : NoDistOverflow ((GetHistogram img).blue)) :
    (∃ p1 p2 : Nat, IsLeastArgmaxOn ((GetHistogram img).red) 256 p1 ∧
      IsLeastArgmaxOn (sparseDistanceExact ((GetHistogram img).red) p1) 256 p2 ∧
      twoPeaksCut ((GetHistogram img).red) = (p1 + p2) >>> 1) ∧
    (∃ p1 p2 : Nat, IsLeastArgmaxOn ((GetHistogram img).green) 256 p1 ∧
      IsLeastArgmaxOn (sparseDistanceExact ((GetHistogram img).green) p1) 256 p2 ∧
      twoPeaksCut ((GetHistogram img).green) = (p1 + p2) >>> 1) ∧
    (∃ p1 p2 : Nat, IsLeastArgmaxOn ((GetHistogram img).blue) 256 p1 ∧
      IsLeastArgmaxOn (sparseDistanceExact ((GetHistogram img).blue) p1) 256 p2 ∧
      twoPeaksCut ((GetHistogram img).blue) = (p1 + p2) >>> 1) ∧
    TwoPeaks img = Binarize img
      (byteOfNat (twoPeaksCut ((GetHistogram img).red)))
      (byteOfNat (twoPeaksCut ((GetHistogram img).green)))
      (byteOfNat (twoPeaksCut ((GetHistogram img).blue))) :=
  ⟨twoPeaksCut_spec ((GetHistogram img).red) hr,
   twoPeaksCut_spec ((GetHistogram img).green) hg,
   twoPeaksCut_spec ((GetHistogram img).blue) hb, rfl⟩

/-- Witness for C4 at the spec's concrete scenario `img50` (uniformly 50
except one pixel at 200): the overflow-freedom hypotheses hold, the red cut
point is 125, and `TwoPeaks` binarizes with cut point 125 on every
channel. -/
theorem twoPeaks_peaks_and_cut_witness :
    NoDistOverflow ((GetHistogram img50).red) ∧
    NoDistOverflow ((GetHistogram img50).green) ∧
    NoDistOverflow ((GetHistogram img50).blue) ∧
    twoPeaksCut ((GetHistogram img50).red) = 125 ∧
    TwoPeaks img50 = Binarize img50 (byteOfNat 125) (byteOfNat 125)
      (byteOfNat 125) := by
  have hr : NoDistOverflow ((GetHistogram img50).red) := img50_no_overflow
  have hg : NoDistOverflow ((GetHistogram img50).green) := img50_no_overflow
  have hb : NoDistOverflow ((GetHistogram img50).blue) := img50_no_overflow
  have hmain := twoPeaks_peaks_and_cut img50 hr hg hb
  have hcutr : twoPeaksCut ((GetHistogram img50).red) = 125 := img50_cut
  have hcutg : twoPeaksCut ((GetHistogram img50).green) = 125 := img50_cut
  have hcutb : twoPeaksCut ((GetHistogram img50).blue) = 125 := img50_cut
  have hbin := hmain.2.2.2
  rw [hcutr, hcutg, hcutb] at hbin
  exact ⟨hr, hg, hb, hcutr, hbin⟩

lemma ovfImg_red_hist : (GetHistogram ovfImg).red = ovfHist := by
  rw [GetHistogram]
  dsimp only
  rw [(rfl : ovfImg.width = 67600), (rfl : ovfImg.height = 1),
    (rfl : ovfImg.red = ovfChan)]
  rfl

/-- C4 counterexample: on the 67600×1 image `ovfImg` the code's red `peak1`
is 0, the lowest index maximizing the exact weighted squared distance
`(i - peak1)^2 * histogram[i]` is 255, so the claimed cut point would be
`(0 + 255) >> 1 = 127` — but the 32-bit product wraps at i = 255 and the
code's `TwoPeaks` computes red cut point 0 instead. -/
theorem twoPeaks_exact_argmax_fails_on_ovfImg :
    get_index_of_max_value ((GetHistogram ovfImg).red) 256 = 0 ∧
    IsLeastArgmaxOn (sparseDistanceExact ((GetHistogram ovfImg).red) 0) 256 255 ∧
    (0 + 255) >>> 1 = 127 ∧
    twoPeaksCut ((GetHistogram ovfImg).red) = 0 ∧
    TwoPeaks ovfImg = Binarize ovfImg
      (byteOfNat (twoPeaksCut ((GetHistogram ovfImg).red)))
      (byteOfNat (twoPeaksCut ((GetHistogram ovfImg).green)))
      (byteOfNat (twoPeaksCut ((GetHistogram ovfImg).blue))) ∧
    (0 : Nat) ≠ 127 := by
  have hA : get_index_of_max_value ((GetHistogram ovfImg).red) 256 = 0 := by
    rw [ovfImg_red_hist]
    exact ovf_peak1
  have hD : twoPeaksCut ((GetHistogram ovfImg).red) = 0 := by
    rw [ovfImg_red_hist]
    exact ovf_cut
  have hB : IsLeastArgmaxOn
      (sparseDistanceExact ((GetHistogram ovfImg).red) 0) 256 255 := by
    rw [ovfImg_red_hist]
    refine ⟨by norm_num, fun j hj => ?_, fun j hj => ?_⟩
    · show sparseDistanceExact ovfHist 0 j ≤ sparseDistanceExact ovfHist 0 255
      rw [ovf_exact_255]
      rcases eq_or_ne j 0 with rfl | hj0
      · rw [ovf_exact_0]; norm_num
      · rcases eq_or_ne j 255 with rfl | hj255
        · rw [ovf_exact_255]
        · rw [ovf_exact_other j hj0 hj255]; norm_num
    · show sparseDistanceExact ovfHist 0 j < sparseDistanceExact ovfHist 0 255
      rw [ovf_exact_255]
      rcases eq_or_ne j 0 with rfl | hj0
      · rw [ovf_exact_0]; norm_num
      · rw [ovf_exact_other j hj0 (by omega)]; norm_num
  exact ⟨hA, hB, by decide, hD, rfl, by decide⟩

/-- C6 refuted at `ovfImg`: the red weighted squared distance at i = 255
(with `peak1 = 0` and `hist[255] = 33026`) is mathematically
`65025 * 33026 = 2147515650`, but the code evaluates the product in 32-bit
`int`, wrapping it to -2147451646 before the widening store into the
`int64_t` array — so the stored value is not the exact one. -/
theorem twoPeaks_distance_wraps_on_ovfImg :
    get_index_of_max_value ((GetHistogram ovfImg).red) 256 = 0 ∧
    sparseDistance ((GetHistogram ovfImg).red) 0 255 = -2147451646 ∧
    sparseDistanceExact ((GetHistogram ovfImg).red) 0 255 = 2147515650 ∧
    sparseDistance ((GetHistogram ovfImg).red) 0 255 ≠
      sparseDistanceExact ((GetHistogram ovfImg).red) 0 255 := by
  rw [ovfImg_red_hist]
  refine ⟨ovf_peak1, ovf_dist_255, ovf_exact_255, ?_⟩
  rw [ovf_dist_255, ovf_exact_255]
  decide

/-- C5 (amended): for every input histogram, `CreateHistogramImage` builds
its chart buffer with width `2*30 + 256` and height `2*10 + 2*30 + 3*256`,
i.e. dimensions exactly (316, 848), regardless of the input image's size. -/
theorem createHistogramImage_dims_fixed (histogram : RGBHistogram) :
    CreateHistogramImage_dims histogram
      = (2 * 30 + 256, 2 * 10 + 2 * 30 + 3 * 256) ∧
    CreateHistogramImage_dims histogram = (316, 848) :=
  ⟨rfl, rfl⟩

/-- C5 counterexample: the claim's evaluated pair (316, 1126) is wrong — the
source's height formula `2*10 + 2*30 + 3*256` evaluates to 848 — checked on
the histogram of the 1×1 image `img100`. -/
theorem createHistogramImage_dims_ne_claimed :
    CreateHistogramImage_dims (GetHistogram img100) = (316, 848) ∧
    CreateHistogramImage_dims (GetHistogram img100) ≠ (316, 1126) := by
  refine ⟨rfl, fun hc => ?_⟩
  have h2 := congrArg Prod.snd hc
  simp only [CreateHistogramImage_dims, tb_borders, in_between_borders,
    graph_height] at h2
  omega

lemma medianGreyLevelCut_spec (w h : Nat) (chan : Nat → Nat → Fin 256)
    (hocc : ∃ v, channelHist w h chan v ≠ 0) :
    ∃ m M : Nat, channelHist w h chan m ≠ 0 ∧
      (∀ j, j < m → channelHist w h chan j = 0) ∧
      IsLeastArgmaxOn (channelHist w h chan) 256 M ∧
      medianGreyLevelCut (channelHist w h chan) = (M - m) >>> 1 := by
  refine ⟨Nat.find hocc, get_index_of_max_value (channelHist w h chan) 256,
    Nat.find_spec hocc, ?_,
    get_index_of_max_value_spec (channelHist w h chan) 256 (by norm_num), ?_⟩
  · intro j hj
    have := Nat.find_min hocc hj
    simpa using this
  · unfold medianGreyLevelCut
    have hfind : scanFirstNonzeroIdx (channelHist w h chan) 0 256
        = Nat.find hocc := by
      have hlt : Nat.find hocc < 256 :=
        lt_of_channelHist_ne_zero w h chan _ (Nat.find_spec hocc)
      refine scanFirstNonzeroIdx_eq (channelHist w h chan) 256 0
        (Nat.find hocc) (Nat.zero_le _) (by omega) ?_ (Nat.find_spec hocc)
      intro j _ hj
      have := Nat.find_min hocc hj
      simpa using this
    rw [hfind]

/-- C8: the spec-modelled `MedianGreyLevel` strategy computes, per channel,
`min_intensity` = the lowest index with nonzero histogram count and
`max_intensity` = the (first) index of the highest-frequency bin, produces
the cut point `(max_intensity - min_intensity) >> 1` (not offset by
`min_intensity`), and feeds the cut points to `Binarize`. -/
theorem medianGreyLevel_cut_points (img : Image)
    (hr : ∃ v, (GetHistogram img).red v ≠ 0)
    (hg : ∃ v, (GetHistogram img).green v ≠ 0)
    (hb : ∃ v, (GetHistogram img).blue v ≠ 0) :
    (∃ m M : Nat, (GetHistogram img).red m ≠ 0 ∧
      (∀ j, j < m → (GetHistogram img).red j = 0) ∧
      IsLeastArgmaxOn ((GetHistogram img).red) 256 M ∧
      medianGreyLevelCut ((GetHistogram img).red) = (M - m) >>> 1) ∧
    (∃ m M : Nat, (GetHistogram img).green m ≠ 0 ∧
      (∀ j, j < m → (GetHistogram img).green j = 0) ∧
      IsLeastArgmaxOn ((GetHistogram img).green) 256 M ∧
      medianGreyLevelCut ((GetHistogram img).green) = (M - m) >>> 1) ∧
    (∃ m M : Nat, (GetHistogram img).blue m ≠ 0 ∧
      (∀ j, j < m → (GetHistogram img).blue j = 0) ∧
      IsLeastArgmaxOn ((GetHistogram img).blue) 256 M ∧
      medianGreyLevelCut ((GetHistogram img).blue) = (M - m) >>> 1) ∧
    MedianGreyLevel img = Binarize img
      (byteOfNat (medianGreyLevelCut ((GetHistogram img).red)))
      (byteOfNat (medianGreyLevelCut ((GetHistogram img).green)))
      (byteOfNat (medianGreyLevelCut ((GetHistogram img).blue))) :=
  ⟨medianGreyLevelCut_spec img.width img.height img.red hr,
   medianGreyLevelCut_spec img.width img.height img.green hg,
   medianGreyLevelCut_spec img.width img.height img.blue hb, rfl⟩

lemma medianGreyLevelCut_eq_of (hist : Nat → Nat) (a b : Nat)
    (h1 : get_index_of_max_value hist 256 = a)
    (h2 : scanFirstNonzeroIdx hist 0 256 = b) :
    medianGreyLevelCut hist = (a - b) >>> 1 := by
  unfold medianGreyLevelCut
  rw [h1, h2]

lemma histTV_10 : histTV 10 = 1 := by decide

lemma histTV_20 : histTV 20 = 1 := by decide

lemma histTV_other (v : Nat) (h1 : v ≠ 10) (h2 : v ≠ 20) : histTV v = 0 := by
  unfold histTV channelHist
  refine Finset.sum_eq_zero fun x _ => Finset.sum_eq_zero fun y _ => ?_
  unfold chanTV
  by_cases h : x = 0
  · rw [if_pos h, (show ((10 : Fin 256) : Nat) = 10 from rfl),
      if_neg (by omega)]
  · rw [if_neg h, (show ((20 : Fin 256) : Nat) = 20 from rfl),
      if_neg (by omega)]

lemma imgTV_M : get_index_of_max_value histTV 256 = 10 := by
  apply get_index_of_max_value_eq
  refine ⟨by norm_num, fun j hj => ?_, fun j hj => ?_⟩
  · rw [histTV_10]
    rcases eq_or_ne j 10 with rfl | h10
    · rw [histTV_10]
    · rcases eq_or_ne j 20 with rfl | h20
      · rw [histTV_20]
      · rw [histTV_other j h10 h20]; omega
  · rw [histTV_10, histTV_other j (by omega) (by omega)]
    omega

lemma imgTV_m : scanFirstNonzeroIdx histTV 0 256 = 10 := by
  refine scanFirstNonzeroIdx_eq histTV 256 0 10 (by omega) (by omega) ?_ ?_
  · intro j _ hj
    exact histTV_other j (by omega) (by omega)
  · rw [histTV_10]; omega

lemma imgTV_cut : medianGreyLevelCut histTV = 0 := by
  have h := medianGreyLevelCut_eq_of histTV 10 10 imgTV_M imgTV_m
  rw [h]
  decide

/-- Witness for C8 at `imgTwoVals` (channel values 10 and 20): the histogram
occupancy hypotheses hold, the cut point is `(10 - 10) >> 1 = 0` on every
channel, and `MedianGreyLevel` binarizes with those cut points. -/
theorem medianGreyLevel_cut_points_witness :
    (∃ v, (GetHistogram imgTwoVals).red v ≠ 0) ∧
    (∃ v, (GetHistogram imgTwoVals).green v ≠ 0) ∧
    (∃ v, (GetHistogram imgTwoVals).blue v ≠ 0) ∧
    medianGreyLevelCut ((GetHistogram imgTwoVals).red) = 0 ∧
    MedianGreyLevel imgTwoVals = Binarize imgTwoVals (byteOfNat 0)
      (byteOfNat 0) (byteOfNat 0) := by
  have hr : ∃ v, (GetHistogram imgTwoVals).red v ≠ 0 := ⟨10, by decide⟩
  have hg : ∃ v, (GetHistogram imgTwoVals).green v ≠ 0 := ⟨10, by decide⟩
  have hb : ∃ v, (GetHistogram imgTwoVals).blue v ≠ 0 := ⟨10, by decide⟩
  have hmain := medianGreyLevel_cut_points imgTwoVals hr hg hb
  have hhr : (GetHistogram imgTwoVals).red = histTV := rfl
  have hhg : (GetHistogram imgTwoVals).green = histTV := rfl
  have hhb : (GetHistogram imgTwoVals).blue = histTV := rfl
  have hcr : medianGreyLevelCut ((GetHistogram imgTwoVals).red) = 0 := by
    rw [hhr, imgTV_cut]
  have hcg : medianGreyLevelCut ((GetHistogram imgTwoVals).green) = 0 := by
    rw [hhg, imgTV_cut]
  have hcb : medianGreyLevelCut ((GetHistogram imgTwoVals).blue) = 0 := by
    rw [hhb, imgTV_cut]
  have hbin := hmain.2.2.2
  rw [hcr, hcg, hcb] at hbin
  exact ⟨hr, hg, hb, hcr, hbin⟩
